import Mathlib

/-!
# Verification of the blockchain consensus simulator core

A shallow embedding of the ledger, node runtime and consensus handlers of the
`blockchain_sim` package (`core/block.py`, `core/blockchain.py`, `core/node.py`,
`core/consensus/{pbft,poa,pos}.py`), with theorems checking the stated
properties of the specification against the code.

SHA-256 content hashing is abstracted: every definition is parametrised by a
block-hash function `H : BlockData → String` (the source's
`Block.compute_hash`) and, where needed, a transaction-hash function
`HT : TxData → String` (the source's `Transaction.compute_hash`).  All
structural properties proved here hold for every choice of these functions;
concrete instantiations are used for witnesses and counterexamples.

Python `time.time()` is modelled by explicit rational-valued time parameters,
and Python's `random` draws by explicit oracle inputs.  Monitoring calls (the
external sink) are modelled as emitted events, gated on whether a monitoring
sink is attached, mirroring the `if self.monitoring:` guards in the source.
-/

namespace BlockchainSim

/-- A participant identifier.  The Python simulator uses integer node ids
(`{"node_id": 0, ...}` in the configuration) and the literal string
`"Network"` as the sender of mining-reward transactions. -/
inductive Addr where
  | network : Addr
  | node : Nat → Addr
deriving DecidableEq, Repr

/-- The hash preimage of a transaction: the dictionary
`{sender, receiver, amount, timestamp}` serialized in
`Transaction.compute_hash` (transaction.py, lines 14-25). -/
structure TxData where
  sender : Addr
  receiver : Addr
  amount : ℚ
  timestamp : ℚ
deriving DecidableEq, Repr

/-- A transaction record (transaction.py, `Transaction.__init__`): the four
content fields plus the content hash `tx_hash` computed at construction. -/
structure Transaction where
  sender : Addr
  receiver : Addr
  amount : ℚ
  timestamp : ℚ
  tx_hash : String
deriving DecidableEq, Repr

/-- The hash preimage of `t`, as assembled by `Transaction.compute_hash`. -/
def Transaction.body (t : Transaction) : TxData :=
  ⟨t.sender, t.receiver, t.amount, t.timestamp⟩

/-- Constructor `Transaction(sender, receiver, amount, timestamp)`: constructs the record
and sets `tx_hash = HT(body)` (transaction.py, line 12). -/
def mkTransaction (HT : TxData → String) (sender receiver : Addr)
    (amount timestamp : ℚ) : Transaction :=
  ⟨sender, receiver, amount, timestamp, HT ⟨sender, receiver, amount, timestamp⟩⟩

/-- The hash preimage of a block: every `Block` field except `hash` itself,
mirroring `block_data.pop("hash", None)` in `Block.compute_hash`
(block.py, lines 17-40). -/
structure BlockData where
  index : Nat
  previous_hash : String
  transactions : List Transaction
  timestamp : ℚ
  nonce : Nat
deriving DecidableEq, Repr

/-- A block record (block.py, `Block.__init__`): content fields plus the
stored `hash` field. -/
structure Block where
  index : Nat
  previous_hash : String
  transactions : List Transaction
  timestamp : ℚ
  nonce : Nat
  hash : String
deriving DecidableEq, Repr

/-- The hash preimage of `b`: all fields except `hash`. -/
def Block.body (b : Block) : BlockData :=
  ⟨b.index, b.previous_hash, b.transactions, b.timestamp, b.nonce⟩

/-- Constructor `Block(index, previous_hash, transactions, timestamp, nonce)`: constructs
the record with `hash = H(body)` (block.py, line 15). -/
def mkBlock (H : BlockData → String) (index : Nat) (previous_hash : String)
    (transactions : List Transaction) (timestamp : ℚ) (nonce : Nat) : Block :=
  ⟨index, previous_hash, transactions, timestamp, nonce,
    H ⟨index, previous_hash, transactions, timestamp, nonce⟩⟩

@[simp] theorem mkBlock_hash (H : BlockData → String) (i : Nat) (p : String)
    (txs : List Transaction) (ts : ℚ) (n : Nat) :
    (mkBlock H i p txs ts n).hash = H (mkBlock H i p txs ts n).body := rfl

/-- The per-node ledger (blockchain.py, `Blockchain.__init__`): an ordered
chain of blocks and the list of pending transactions. -/
structure Blockchain where
  chain : List Block
  pending_transactions : List Transaction
deriving DecidableEq, Repr

/-- Genesis creation `create_genesis_block` (blockchain.py, lines 12-19): the fixed first block
`Block(index=0, previous_hash="0", transactions=[], timestamp=0.0)` with
`nonce=0` defaulted; its hash is computed like any other block's. -/
def create_genesis_block (H : BlockData → String) : Block :=
  mkBlock H 0 "0" [] 0 0

/-- Constructor `Blockchain.__init__`: empty pending list and a chain holding exactly the
genesis block. -/
def Blockchain.init (H : BlockData → String) : Blockchain :=
  ⟨[create_genesis_block H], []⟩

/-- The tip `Blockchain.last_block` is `self.chain[-1]`; `none` models the
`IndexError` raised on an empty chain (unreachable from `init`). -/
def Blockchain.last_block? (bc : Blockchain) : Option Block :=
  bc.chain.getLast?

/-- Admission `Blockchain.add_block(block)` (blockchain.py, lines 31-59): rejects when
the block's `previous_hash` differs from the tip's `hash`, or when the stored
`hash` differs from the recomputed `compute_hash()`; otherwise appends the
block and resets `pending_transactions` to `[]`, returning the success flag
together with the updated ledger.  `none` models the `IndexError` of
`self.last_block` on an empty chain. -/
def add_block (H : BlockData → String) (bc : Blockchain) (b : Block) :
    Option (Bool × Blockchain) :=
  match bc.chain.getLast? with
  | none => none
  | some tip =>
    if b.previous_hash ≠ tip.hash then some (false, bc)
    else if b.hash ≠ H b.body then some (false, bc)
    else some (true, ⟨bc.chain ++ [b], []⟩)

/-- The ledger state after an `add_block` call, whatever the returned flag
was (the unreachable empty-chain case leaves the state unchanged). -/
def addBlockState (H : BlockData → String) (bc : Blockchain) (b : Block) :
    Blockchain :=
  match add_block H bc b with
  | none => bc
  | some (_, bc') => bc'

/-- A sequence of `add_block` calls, applied left to right. -/
def runAddBlocks (H : BlockData → String) (bc : Blockchain)
    (bs : List Block) : Blockchain :=
  bs.foldl (addBlockState H) bc

/-- Chain integrity, exactly as the specification states it: for all
`i ≥ 1`, `chain[i].previous_hash == chain[i-1].hash` and
`chain[i].hash == recompute(chain[i])`. -/
def chainValid (H : BlockData → String) (chain : List Block) : Prop :=
  ∀ i : Nat, (hi : i < chain.length) → 1 ≤ i →
    (chain.get ⟨i, hi⟩).previous_hash =
      (chain.get ⟨i - 1, Nat.lt_of_le_of_lt (Nat.pred_le i) hi⟩).hash ∧
    (chain.get ⟨i, hi⟩).hash = H (chain.get ⟨i, hi⟩).body

/-- Validation `Blockchain.is_chain_valid` (blockchain.py, lines 84-96), as an
executable check: scan from index 1, checking link and hash equality. -/
def is_chain_valid (H : BlockData → String) (bc : Blockchain) : Bool :=
  (List.range bc.chain.length).all fun i =>
    if h : i < bc.chain.length then
      if 1 ≤ i then
        let current := bc.chain.get ⟨i, h⟩
        let previous := bc.chain.get ⟨i - 1, Nat.lt_of_le_of_lt (Nat.pred_le i) h⟩
        decide (current.previous_hash = previous.hash) &&
          decide (current.hash = H current.body)
      else true
    else true

theorem chainValid_append (H : BlockData → String) {c : List Block} {b : Block}
    (hne : c ≠ []) (hv : chainValid H c)
    (hprev : b.previous_hash = (c.getLast hne).hash)
    (hhash : b.hash = H b.body) :
    chainValid H (c ++ [b]) := by
  intro i hi h1
  have hlen : (c ++ [b]).length = c.length + 1 := by simp
  rcases Nat.lt_or_ge i c.length with hlt | hge
  · have h1m : i - 1 < c.length := Nat.lt_of_le_of_lt (Nat.pred_le i) hlt
    have e1 : (c ++ [b]).get ⟨i, hi⟩ = c.get ⟨i, hlt⟩ := by
      simp only [List.get_eq_getElem]
      exact List.getElem_append_left hlt
    have e2 : (c ++ [b]).get ⟨i - 1, Nat.lt_of_le_of_lt (Nat.pred_le i) hi⟩ =
        c.get ⟨i - 1, h1m⟩ := by
      simp only [List.get_eq_getElem]
      exact List.getElem_append_left h1m
    rw [e1, e2]
    exact hv i hlt h1
  · have hieq : i = c.length := by
      have := hi
      rw [hlen] at this
      omega
    subst hieq
    have hc1 : 1 ≤ c.length := by
      cases c with
      | nil => exact absurd rfl hne
      | cons a l => simp
    have e1 : (c ++ [b]).get ⟨c.length, hi⟩ = b := by
      simp [List.get_eq_getElem]
    have hm1 : c.length - 1 < c.length := by omega
    have e2 : (c ++ [b]).get
        ⟨c.length - 1, Nat.lt_of_le_of_lt (Nat.pred_le c.length) hi⟩ =
        c.get ⟨c.length - 1, hm1⟩ := by
      simp only [List.get_eq_getElem]
      exact List.getElem_append_left hm1
    have e3 : c.getLast hne = c.get ⟨c.length - 1, hm1⟩ := by
      simp only [List.get_eq_getElem]
      exact List.getLast_eq_getElem c hne
    rw [e1, e2, ← e3]
    exact ⟨hprev, hhash⟩

theorem addBlockState_preserves (H : BlockData → String) (bc : Blockchain)
    (b : Block) (hv : chainValid H bc.chain) :
    chainValid H (addBlockState H bc b).chain := by
  unfold addBlockState add_block
  cases hlast : bc.chain.getLast? with
  | none => exact hv
  | some tip =>
    have hne : bc.chain ≠ [] := by
      intro h
      rw [h] at hlast
      simp at hlast
    have htip : bc.chain.getLast hne = tip := by
      have := List.getLast?_eq_getLast bc.chain hne
      rw [hlast] at this
      exact (Option.some_inj.mp this).symm
    by_cases h1 : b.previous_hash = tip.hash
    · by_cases h2 : b.hash = H b.body
      · simp only [h1, h2, ite_true, ite_false, ne_eq, not_true_eq_false,
          not_false_eq_true]
        exact chainValid_append H hne hv (htip ▸ h1) h2
      · simp only [ne_eq, h1, not_true_eq_false, ite_false, h2,
          not_false_eq_true, ite_true]
        exact hv
    · simp only [ne_eq, h1, not_false_eq_true, ite_true]
      exact hv

theorem chainValid_init (H : BlockData → String) :
    chainValid H (Blockchain.init H).chain := by
  intro i hi h1
  simp [Blockchain.init] at hi
  omega

/-- C1.  Chain integrity: starting from the genesis chain, after any sequence
of `add_block` calls the chain satisfies, for all `i ≥ 1`,
`chain[i].previous_hash == chain[i-1].hash` and
`chain[i].hash == recompute(chain[i])`; moreover every single admission
preserves this invariant. -/
theorem chain_integrity (H : BlockData → String) :
    (∀ blocks : List Block,
      chainValid H (runAddBlocks H (Blockchain.init H) blocks).chain) ∧
    (∀ (bc : Blockchain) (b : Block), chainValid H bc.chain →
      chainValid H (addBlockState H bc b).chain) := by
  constructor
  · intro blocks
    suffices h : ∀ (bc : Blockchain), chainValid H bc.chain →
        chainValid H (runAddBlocks H bc blocks).chain from
      h (Blockchain.init H) (chainValid_init H)
    induction blocks with
    | nil => intro bc hv; exact hv
    | cons b bs ih =>
      intro bc hv
      exact ih (addBlockState H bc b) (addBlockState_preserves H bc b hv)
  · exact addBlockState_preserves H

/-- A concrete, injective-enough block-hash function standing in for SHA-256
in witnesses and counterexamples. -/
def Hc : BlockData → String :=
  fun d => "h" ++ toString d.index ++ "|" ++ d.previous_hash

/-- A concrete transaction-hash function for witnesses and counterexamples. -/
def HTc : TxData → String := fun d => "t" ++ toString d.amount

/-- C1 witness: a single admission onto the concrete genesis chain preserves
chain integrity. -/
theorem chain_integrity_witness :
    chainValid Hc (addBlockState Hc (Blockchain.init Hc)
      (mkBlock Hc 1 (create_genesis_block Hc).hash [] 0 0)).chain :=
  (chain_integrity Hc).2 (Blockchain.init Hc)
    (mkBlock Hc 1 (create_genesis_block Hc).hash [] 0 0) (chainValid_init Hc)

/-- C2.  `add_block(B)` returns `false` (leaving the ledger unchanged) when
`B.previous_hash != tip.hash` or `B.hash != recompute(B)`; otherwise it
appends `B` to the chain, sets `pending_transactions` to `[]`, and returns
`true`. -/
theorem add_block_spec (H : BlockData → String) (bc : Blockchain) (b : Block)
    (tip : Block) (htip : bc.chain.getLast? = some tip) :
    (b.previous_hash ≠ tip.hash ∨ b.hash ≠ H b.body →
      add_block H bc b = some (false, bc)) ∧
    (b.previous_hash = tip.hash → b.hash = H b.body →
      add_block H bc b = some (true, ⟨bc.chain ++ [b], []⟩)) := by
  unfold add_block
  rw [htip]
  constructor
  · intro h
    rcases h with h | h
    · simp [h]
    · by_cases h1 : b.previous_hash = tip.hash <;> simp [h1, h]
  · intro h1 h2
    simp [h1, h2]

/-- C2 witness: a concrete linking block is admitted onto the genesis chain,
appending it and clearing the pending list. -/
theorem add_block_spec_witness :
    (Blockchain.init Hc).chain.getLast? = some (create_genesis_block Hc) ∧
    (mkBlock Hc 1 (create_genesis_block Hc).hash [] 0 0).previous_hash =
      (create_genesis_block Hc).hash ∧
    add_block Hc (Blockchain.init Hc)
        (mkBlock Hc 1 (create_genesis_block Hc).hash [] 0 0) =
      some (true, ⟨(Blockchain.init Hc).chain ++
        [mkBlock Hc 1 (create_genesis_block Hc).hash [] 0 0], []⟩) :=
  ⟨rfl, rfl,
    (add_block_spec Hc (Blockchain.init Hc)
      (mkBlock Hc 1 (create_genesis_block Hc).hash [] 0 0)
      (create_genesis_block Hc) rfl).2 rfl rfl⟩

/-- Mining `Blockchain.mine_pending_transactions(miner_address, nonce, add_to_chain)`
(blockchain.py, lines 61-82): appends a `"Network" → miner` reward transaction
of amount 1 to `pending_transactions`, constructs a block at index
`len(self.chain)` linking to the tip, recomputes its hash, and, when
`add_to_chain`, passes it to `add_block` (the returned flag is ignored).  The
two `time.time()` calls are the explicit parameters `tNow` (reward-transaction
timestamp) and `bNow` (block timestamp); `none` models the `IndexError` of
`self.last_block` on an empty chain. -/
def mine_pending_transactions (H : BlockData → String) (HT : TxData → String)
    (bc : Blockchain) (miner : Addr) (nonce : Nat) (add_to_chain : Bool)
    (tNow bNow : ℚ) : Option (Block × Blockchain) :=
  let reward := mkTransaction HT Addr.network miner 1 tNow
  let pending := bc.pending_transactions ++ [reward]
  match bc.chain.getLast? with
  | none => none
  | some tip =>
    let new_block := mkBlock H bc.chain.length tip.hash pending bNow nonce
    let bc1 : Blockchain := ⟨bc.chain, pending⟩
    if add_to_chain then
      match add_block H bc1 new_block with
      | none => none
      | some (_, bc2) => some (new_block, bc2)
    else some (new_block, bc1)

/-- A block of index 7 linking directly to genesis: `add_block` never
inspects `block.index`, so this block is admitted onto the genesis chain. -/
def skewBlock : Block := mkBlock Hc 7 (create_genesis_block Hc).hash [] 0 0

/-- The ledger obtained from the genesis chain by admitting `skewBlock`:
chain length 2, tip index 7. -/
def skewChain : Blockchain := addBlockState Hc (Blockchain.init Hc) skewBlock

/-- C8 counterexample: on a ledger whose tip has index 7 (reached through
`add_block`, which never checks indices), `mine_pending_transactions` returns
a block of index 2 = `len(chain)`, not `tip.index + 1 = 8`. -/
theorem mine_pending_index_counterexample :
    skewChain.last_block? = some skewBlock ∧ skewBlock.index = 7 ∧
    (mine_pending_transactions Hc HTc skewChain (Addr.node 0) 0 true 0 0).map
        (fun p => p.1.index) = some 2 ∧
    (mine_pending_transactions Hc HTc skewChain (Addr.node 0) 0 true 0 0).map
        (fun p => p.1.index) ≠ some (skewBlock.index + 1) := by
  refine ⟨by decide, by decide, by decide, by decide⟩

/-- C8 (amended).  `mine_pending_transactions(miner, nonce, add)` on a ledger
with tip `T` appends a reward transaction with sender `"Network"`, receiver
`miner` and amount 1 to `pending_transactions`; the returned block carries
exactly those pending transactions, has index `len(chain)` (which equals
`T.index + 1` whenever the chain's indices are consecutive, as they are for
chains produced by mining alone), `previous_hash = T.hash`, and a recomputed
hash; when `add` is true the block is passed to `add_block`, which admits it,
and when `add` is false the ledger keeps the extended pending list. -/
theorem mine_pending_spec (H : BlockData → String) (HT : TxData → String)
    (bc : Blockchain) (miner : Addr) (nonce : Nat) (add_to_chain : Bool)
    (tNow bNow : ℚ) (tip : Block) (htip : bc.chain.getLast? = some tip) :
    ∃ B bc',
      mine_pending_transactions H HT bc miner nonce add_to_chain tNow bNow =
        some (B, bc') ∧
      B.transactions = bc.pending_transactions ++
        [mkTransaction HT Addr.network miner 1 tNow] ∧
      (mkTransaction HT Addr.network miner 1 tNow).sender = Addr.network ∧
      (mkTransaction HT Addr.network miner 1 tNow).receiver = miner ∧
      (mkTransaction HT Addr.network miner 1 tNow).amount = 1 ∧
      B.index = bc.chain.length ∧
      B.previous_hash = tip.hash ∧
      B.hash = H B.body ∧
      (add_to_chain = true →
        add_block H ⟨bc.chain, B.transactions⟩ B = some (true, bc') ∧
        bc' = ⟨bc.chain ++ [B], []⟩) ∧
      (add_to_chain = false → bc' = ⟨bc.chain, B.transactions⟩) := by
  have hblk : add_block H
      ⟨bc.chain, bc.pending_transactions ++
        [mkTransaction HT Addr.network miner 1 tNow]⟩
      (mkBlock H bc.chain.length tip.hash
        (bc.pending_transactions ++
          [mkTransaction HT Addr.network miner 1 tNow]) bNow nonce) =
      some (true, ⟨bc.chain ++
        [mkBlock H bc.chain.length tip.hash
          (bc.pending_transactions ++
            [mkTransaction HT Addr.network miner 1 tNow]) bNow nonce], []⟩) := by
    unfold add_block
    simp only [htip]
    simp [mkBlock, Block.body]
  cases add_to_chain with
  | true =>
    refine ⟨mkBlock H bc.chain.length tip.hash
        (bc.pending_transactions ++
          [mkTransaction HT Addr.network miner 1 tNow]) bNow nonce,
      ⟨bc.chain ++ [mkBlock H bc.chain.length tip.hash
        (bc.pending_transactions ++
          [mkTransaction HT Addr.network miner 1 tNow]) bNow nonce], []⟩,
      ?_, rfl, rfl, rfl, rfl, rfl, rfl, rfl,
      fun _ => ⟨hblk, rfl⟩, fun h => absurd h (by decide)⟩
    simp only [mine_pending_transactions, htip, if_true]
    rw [hblk]
  | false =>
    refine ⟨mkBlock H bc.chain.length tip.hash
        (bc.pending_transactions ++
          [mkTransaction HT Addr.network miner 1 tNow]) bNow nonce,
      ⟨bc.chain, bc.pending_transactions ++
        [mkTransaction HT Addr.network miner 1 tNow]⟩,
      ?_, rfl, rfl, rfl, rfl, rfl, rfl, rfl,
      fun h => absurd h (by decide), fun _ => rfl⟩
    simp only [mine_pending_transactions, htip, Bool.false_eq_true, if_false]

/-- C8 (amended) witness: mining on the concrete genesis ledger with
`add = true`. -/
theorem mine_pending_spec_witness :
    (Blockchain.init Hc).chain.getLast? = some (create_genesis_block Hc) ∧
    (∃ B bc',
      mine_pending_transactions Hc HTc (Blockchain.init Hc) (Addr.node 3) 0
          true 0 0 = some (B, bc') ∧
      B.transactions = (Blockchain.init Hc).pending_transactions ++
        [mkTransaction HTc Addr.network (Addr.node 3) 1 0] ∧
      (mkTransaction HTc Addr.network (Addr.node 3) 1 0).sender =
        Addr.network ∧
      (mkTransaction HTc Addr.network (Addr.node 3) 1 0).receiver =
        Addr.node 3 ∧
      (mkTransaction HTc Addr.network (Addr.node 3) 1 0).amount = 1 ∧
      B.index = (Blockchain.init Hc).chain.length ∧
      B.previous_hash = (create_genesis_block Hc).hash ∧
      B.hash = Hc B.body ∧
      (true = true →
        add_block Hc ⟨(Blockchain.init Hc).chain, B.transactions⟩ B =
          some (true, bc') ∧
        bc' = ⟨(Blockchain.init Hc).chain ++ [B], []⟩) ∧
      (true = false → bc' = ⟨(Blockchain.init Hc).chain, B.transactions⟩)) :=
  ⟨rfl, mine_pending_spec Hc HTc (Blockchain.init Hc) (Addr.node 3) 0 true 0 0
    (create_genesis_block Hc) rfl⟩

/-- Calls a node makes on its monitoring sink (monitoring is an external
observer; the events record the calls the handlers make). -/
inductive NodeEvent where
  | msgDropped : String → NodeEvent
  | msgRecv : String → NodeEvent
  | blockCommitted : NodeEvent
deriving DecidableEq, Repr

/-- Per-node runtime state (node.py, `Node.__init__`): ledger, mempool,
registered public keys, seen-hash sets and trade counters.  `network` and
`monitoring` record whether a transport / monitoring sink is attached
(`self.network is not None`, `self.monitoring is not None`).  The key
material itself is abstracted to the registered PEM strings; the
trade-confirmation timestamp log (pure telemetry) is not modelled. -/
structure Node where
  node_id : Nat
  blockchain : Blockchain
  mempool : List Transaction
  public_keys : Nat → Option String
  seen_transaction_hashes : Finset String
  seen_block_hashes : Finset String
  trade_success_count : Nat
  trade_failure_count : Nat
  network : Bool
  monitoring : Bool

/-- A fresh node (node.py, lines 16-51): genesis ledger, empty mempool and
seen sets, zero trade counters, and its own public key registered. -/
def Node.init (H : BlockData → String) (node_id : Nat) (pem : String)
    (monitoring : Bool) : Node :=
  { node_id := node_id, blockchain := Blockchain.init H, mempool := [],
    public_keys := fun i => if i = node_id then some pem else none,
    seen_transaction_hashes := ∅, seen_block_hashes := ∅,
    trade_success_count := 0, trade_failure_count := 0,
    network := false, monitoring := monitoring }

/-- Handler `Node.receive_transaction(transaction_dict)` (node.py, lines 87-102): a
`tx_hash` already in `seen_transaction_hashes` is counted as dropped and
logged as a trade failure; otherwise the hash is marked seen and the
transaction appended to the mempool (if not structurally present already)
with a trade success logged. -/
def Node.receive_transaction (ns : Node) (transaction_dict : Transaction) :
    Node × List NodeEvent :=
  if transaction_dict.tx_hash ∈ ns.seen_transaction_hashes then
    ({ ns with trade_failure_count := ns.trade_failure_count + 1 },
      if ns.monitoring then [.msgDropped "transaction"] else [])
  else if transaction_dict ∈ ns.mempool then
    ({ ns with
        seen_transaction_hashes :=
          insert transaction_dict.tx_hash ns.seen_transaction_hashes }, [])
  else
    ({ ns with
        seen_transaction_hashes :=
          insert transaction_dict.tx_hash ns.seen_transaction_hashes,
        mempool := ns.mempool ++ [transaction_dict],
        trade_success_count := ns.trade_success_count + 1 },
      if ns.monitoring then [.msgRecv "transaction"] else [])

/-- Handler `Node.receive_block(block_dict)` (node.py, lines 164-224): a `hash`
already in `seen_block_hashes` is dropped, returning `None` (modelled as
`none`); otherwise the hash is marked seen, a `Block` is rebuilt from the
dictionary keeping the *supplied* hash (an identical record here), and ledger
admission is attempted.  On rejection the handler returns `False`; on success
it returns `True` after pruning mempool transactions included in the block.
The empty-chain `IndexError` of `add_block` is caught by the handler's
`except` clause, which also returns `False`. -/
def Node.receive_block (H : BlockData → String) (ns : Node)
    (block_dict : Block) : Option Bool × Node × List NodeEvent :=
  if block_dict.hash ∈ ns.seen_block_hashes then
    (none, ns, if ns.monitoring then [.msgDropped "block"] else [])
  else
    match add_block H ns.blockchain block_dict with
    | none =>
      (some false, { ns with
        seen_block_hashes := insert block_dict.hash ns.seen_block_hashes }, [])
    | some (false, _) =>
      (some false, { ns with
        seen_block_hashes := insert block_dict.hash ns.seen_block_hashes }, [])
    | some (true, bc') =>
      (some true,
        { ns with
          seen_block_hashes := insert block_dict.hash ns.seen_block_hashes,
          blockchain := bc',
          mempool := ns.mempool.filter fun t =>
            t.tx_hash ∉ block_dict.transactions.map Transaction.tx_hash },
        if ns.monitoring then [.msgRecv "block", .blockCommitted] else [])

theorem receive_transaction_mem_seen (ns : Node) (d : Transaction) :
    d.tx_hash ∈ ((ns.receive_transaction d).1).seen_transaction_hashes := by
  unfold Node.receive_transaction
  by_cases h1 : d.tx_hash ∈ ns.seen_transaction_hashes
  · rw [if_pos h1]
    exact h1
  · rw [if_neg h1]
    by_cases h2 : d ∈ ns.mempool
    · rw [if_pos h2]
      exact Finset.mem_insert_self _ _
    · rw [if_neg h2]
      exact Finset.mem_insert_self _ _

theorem receive_transaction_monitoring (ns : Node) (d : Transaction) :
    ((ns.receive_transaction d).1).monitoring = ns.monitoring := by
  unfold Node.receive_transaction
  by_cases h1 : d.tx_hash ∈ ns.seen_transaction_hashes
  · rw [if_pos h1]
  · rw [if_neg h1]
    by_cases h2 : d ∈ ns.mempool
    · rw [if_pos h2]
    · rw [if_neg h2]

/-- C6.  Transaction idempotence: after a first `receive_transaction(d)`
call, a further call with the same `tx_hash` leaves mempool and blockchain
unchanged, is counted as dropped (monitoring attached) and recorded as a
trade failure. -/
theorem receive_transaction_idempotent (ns : Node) (d d2 : Transaction)
    (hmon : ns.monitoring = true) (hh : d2.tx_hash = d.tx_hash) :
    ((ns.receive_transaction d).1.receive_transaction d2).1.mempool =
      (ns.receive_transaction d).1.mempool ∧
    ((ns.receive_transaction d).1.receive_transaction d2).1.blockchain =
      (ns.receive_transaction d).1.blockchain ∧
    ((ns.receive_transaction d).1.receive_transaction d2).1.trade_failure_count
      = (ns.receive_transaction d).1.trade_failure_count + 1 ∧
    ((ns.receive_transaction d).1.receive_transaction d2).2 =
      [NodeEvent.msgDropped "transaction"] := by
  have hseen : d2.tx_hash ∈
      ((ns.receive_transaction d).1).seen_transaction_hashes := by
    rw [hh]
    exact receive_transaction_mem_seen ns d
  have hm : ((ns.receive_transaction d).1).monitoring = true := by
    rw [receive_transaction_monitoring]
    exact hmon
  generalize hg : (ns.receive_transaction d).1 = ns1 at hseen hm ⊢
  unfold Node.receive_transaction
  rw [if_pos hseen, hm]
  exact ⟨rfl, rfl, rfl, rfl⟩

/-- C6 witness: a concrete duplicate submission on a fresh node. -/
theorem receive_transaction_idempotent_witness :
    (Node.init Hc 0 "pem0" true).monitoring = true ∧
    (mkTransaction HTc (Addr.node 0) (Addr.node 1) 5 0).tx_hash =
      (mkTransaction HTc (Addr.node 0) (Addr.node 1) 5 0).tx_hash ∧
    ((((Node.init Hc 0 "pem0" true).receive_transaction
        (mkTransaction HTc (Addr.node 0) (Addr.node 1) 5 0)).1.receive_transaction
        (mkTransaction HTc (Addr.node 0) (Addr.node 1) 5 0)).1.mempool =
      ((Node.init Hc 0 "pem0" true).receive_transaction
        (mkTransaction HTc (Addr.node 0) (Addr.node 1) 5 0)).1.mempool ∧
    (((Node.init Hc 0 "pem0" true).receive_transaction
        (mkTransaction HTc (Addr.node 0) (Addr.node 1) 5 0)).1.receive_transaction
        (mkTransaction HTc (Addr.node 0) (Addr.node 1) 5 0)).1.blockchain =
      ((Node.init Hc 0 "pem0" true).receive_transaction
        (mkTransaction HTc (Addr.node 0) (Addr.node 1) 5 0)).1.blockchain ∧
    (((Node.init Hc 0 "pem0" true).receive_transaction
        (mkTransaction HTc (Addr.node 0) (Addr.node 1) 5 0)).1.receive_transaction
        (mkTransaction HTc (Addr.node 0) (Addr.node 1) 5 0)).1.trade_failure_count =
      ((Node.init Hc 0 "pem0" true).receive_transaction
        (mkTransaction HTc (Addr.node 0) (Addr.node 1) 5 0)).1.trade_failure_count + 1 ∧
    (((Node.init Hc 0 "pem0" true).receive_transaction
        (mkTransaction HTc (Addr.node 0) (Addr.node 1) 5 0)).1.receive_transaction
        (mkTransaction HTc (Addr.node 0) (Addr.node 1) 5 0)).2 =
      [NodeEvent.msgDropped "transaction"]) :=
  ⟨rfl, rfl, receive_transaction_idempotent (Node.init Hc 0 "pem0" true)
    (mkTransaction HTc (Addr.node 0) (Addr.node 1) 5 0)
    (mkTransaction HTc (Addr.node 0) (Addr.node 1) 5 0) rfl rfl⟩

theorem receive_block_mem_seen (H : BlockData → String) (ns : Node)
    (b : Block) :
    b.hash ∈ ((ns.receive_block H b).2.1).seen_block_hashes := by
  unfold Node.receive_block
  by_cases h1 : b.hash ∈ ns.seen_block_hashes
  · rw [if_pos h1]
    exact h1
  · rw [if_neg h1]
    split <;> exact Finset.mem_insert_self _ _

/-- C7.  Block idempotence: a repeated `receive_block` with the same block is
ignored (`None` returned) and leaves the node — in particular its chain —
exactly unchanged, so only the first call can append a block. -/
theorem receive_block_idempotent (H : BlockData → String) (ns : Node)
    (b : Block) :
    ((ns.receive_block H b).2.1.receive_block H b).1 = none ∧
    ((ns.receive_block H b).2.1.receive_block H b).2.1 =
      (ns.receive_block H b).2.1 ∧
    ((ns.receive_block H b).2.1.receive_block H b).2.1.blockchain.chain.length
      = (ns.receive_block H b).2.1.blockchain.chain.length := by
  have hseen : b.hash ∈ ((ns.receive_block H b).2.1).seen_block_hashes :=
    receive_block_mem_seen H ns b
  generalize hg : (ns.receive_block H b).2.1 = ns1 at hseen ⊢
  unfold Node.receive_block
  rw [if_pos hseen]
  exact ⟨rfl, rfl, rfl⟩

theorem receive_block_seen_monotone (H : BlockData → String) (ns : Node)
    (b : Block) :
    ns.seen_block_hashes ⊆ ((ns.receive_block H b).2.1).seen_block_hashes := by
  unfold Node.receive_block
  by_cases h1 : b.hash ∈ ns.seen_block_hashes
  · rw [if_pos h1]
  · rw [if_neg h1]
    split <;> exact Finset.subset_insert _ _

/-- C10.  `receive_block` marks the hash seen before attempting admission, so
a block rejected by `add_block` (the call returned `False`) can never be
retried: its hash is now seen, seen sets only grow, and any later
`receive_block` with a block of the same hash returns `None` immediately with
the node unchanged — even if the chain has advanced so the block would now
link to the tip. -/
theorem receive_block_rejection_permanent (H : BlockData → String) (ns : Node)
    (b : Block) (_hrej : (ns.receive_block H b).1 = some false) :
    b.hash ∈ ((ns.receive_block H b).2.1).seen_block_hashes ∧
    (∀ (ns2 : Node) (b2 : Block),
      ns2.seen_block_hashes ⊆ ((ns2.receive_block H b2).2.1).seen_block_hashes) ∧
    (∀ (ns2 : Node) (b2 : Block), b2.hash = b.hash →
      b.hash ∈ ns2.seen_block_hashes →
      (ns2.receive_block H b2).1 = none ∧ (ns2.receive_block H b2).2.1 = ns2) := by
  refine ⟨receive_block_mem_seen H ns b, receive_block_seen_monotone H, ?_⟩
  intro ns2 b2 hh hmem
  have h2 : b2.hash ∈ ns2.seen_block_hashes := by rw [hh]; exact hmem
  unfold Node.receive_block
  rw [if_pos h2]
  exact ⟨rfl, rfl⟩

/-- C10 witness: a fresh node rejects a block whose `previous_hash` does not
match genesis; afterwards the same hash is seen and re-delivery is a no-op. -/
theorem receive_block_rejection_permanent_witness :
    ((Node.init Hc 0 "pem0" true).receive_block Hc
        (mkBlock Hc 1 "bogus" [] 0 0)).1 = some false ∧
    (mkBlock Hc 1 "bogus" [] 0 0).hash ∈
      (((Node.init Hc 0 "pem0" true).receive_block Hc
        (mkBlock Hc 1 "bogus" [] 0 0)).2.1).seen_block_hashes ∧
    (∀ (ns2 : Node) (b2 : Block), ns2.seen_block_hashes ⊆
      ((ns2.receive_block Hc b2).2.1).seen_block_hashes) ∧
    (∀ (ns2 : Node) (b2 : Block),
      b2.hash = (mkBlock Hc 1 "bogus" [] 0 0).hash →
      (mkBlock Hc 1 "bogus" [] 0 0).hash ∈ ns2.seen_block_hashes →
      (ns2.receive_block Hc b2).1 = none ∧ (ns2.receive_block Hc b2).2.1 = ns2) :=
  ⟨by decide, receive_block_rejection_permanent Hc (Node.init Hc 0 "pem0" true)
    (mkBlock Hc 1 "bogus" [] 0 0) (by decide)⟩

/-- Lookup `staking_balances.get(node_id, 0)` on the staking dictionary, modelled as
an association list. -/
def balancesGet (balances : List (Nat × ℚ)) (node_id : Nat) : ℚ :=
  match balances.find? (fun p => p.1 == node_id) with
  | none => 0
  | some p => p.2

/-- PoS engine state (pos.py, `PoSConsensus.__init__`): validator id list,
staking-balance dictionary, and `total_staked` computed at construction.
The `current_validator` cache, malicious set and received-block set are not
needed for the leader-selection claims. -/
structure PoSConsensus where
  node_id : Nat
  validator_set : List Nat
  balances : List (Nat × ℚ)
  total_staked : ℚ

/-- Constructor `PoSConsensus(node, validator_set, staking_balances)`:
`total_staked = sum(staking_balances.values())` (pos.py, line 17). -/
def mkPoSConsensus (node_id : Nat) (validator_set : List Nat)
    (staking_balances : List (Nat × ℚ)) : PoSConsensus :=
  ⟨node_id, validator_set, staking_balances,
    (staking_balances.map Prod.snd).sum⟩

/-- The accumulation loop of `select_validator` (pos.py, lines 26-31): walk
the validator list adding each validator's stake to `cumulative`, returning
the first validator for which `rand_value <= cumulative`; `none` when the
loop falls through. -/
def selectWalk (balances : List (Nat × ℚ)) (rand_value : ℚ) :
    List Nat → ℚ → Option Nat
  | [], _ => none
  | v :: rest, cumulative =>
    if rand_value ≤ cumulative + balancesGet balances v then some v
    else selectWalk balances rand_value rest (cumulative + balancesGet balances v)

/-- Leader pick `select_validator` (pos.py, lines 23-32).  The `random.uniform(0,
self.total_staked)` draw is the explicit oracle input `r`; the walk starts
with `cumulative = 0`. -/
def select_validator (c : PoSConsensus) (r : ℚ) : Option Nat :=
  selectWalk c.balances r c.validator_set 0

/-- Gate `can_propose` (pos.py, lines 34-36): the node may propose exactly when
its own `node_id` equals the selected validator. -/
def can_propose (c : PoSConsensus) (r : ℚ) : Bool :=
  select_validator c r == some c.node_id

/-- The cumulative stake of a list of validators. -/
def cumStake (balances : List (Nat × ℚ)) (vs : List Nat) : ℚ :=
  (vs.map (balancesGet balances)).sum

@[simp] theorem cumStake_nil (balances : List (Nat × ℚ)) :
    cumStake balances [] = 0 := rfl

@[simp] theorem cumStake_cons (balances : List (Nat × ℚ)) (a : Nat)
    (l : List Nat) :
    cumStake balances (a :: l) = balancesGet balances a + cumStake balances l := by
  simp [cumStake]

theorem selectWalk_spec (balances : List (Nat × ℚ)) (r : ℚ) :
    ∀ (vs : List Nat) (acc : ℚ) (v : Nat),
    selectWalk balances r vs acc = some v ↔
      ∃ i, ∃ hi : i < vs.length, vs.get ⟨i, hi⟩ = v ∧
        r ≤ acc + cumStake balances (vs.take (i + 1)) ∧
        ∀ j < i, ¬ r ≤ acc + cumStake balances (vs.take (j + 1)) := by
  intro vs
  induction vs with
  | nil =>
    intro acc v
    simp [selectWalk]
  | cons a rest ih =>
    intro acc v
    by_cases hle : r ≤ acc + balancesGet balances a
    · rw [selectWalk, if_pos hle]
      constructor
      · intro h
        refine ⟨0, Nat.succ_pos _, Option.some_inj.mp h, ?_, by omega⟩
        simpa using hle
      · rintro ⟨i, hi, hv, hcum, hmin⟩
        cases i with
        | zero => exact congrArg some hv
        | succ k =>
          exfalso
          refine hmin 0 (Nat.succ_pos _) ?_
          simpa using hle
    · rw [selectWalk, if_neg hle]
      rw [ih (acc + balancesGet balances a) v]
      constructor
      · rintro ⟨i, hi, hv, hcum, hmin⟩
        refine ⟨i + 1, Nat.succ_lt_succ hi, hv, ?_, ?_⟩
        · simpa [add_assoc] using hcum
        · intro j hj
          cases j with
          | zero => simpa using hle
          | succ k =>
            have hk : k < i := Nat.lt_of_succ_lt_succ hj
            have := hmin k hk
            simpa [add_assoc] using this
      · rintro ⟨i, hi, hv, hcum, hmin⟩
        cases i with
        | zero =>
          exfalso
          apply hle
          simpa using hcum
        | succ k =>
          refine ⟨k, Nat.lt_of_succ_lt_succ hi, hv, ?_, ?_⟩
          · simpa [add_assoc] using hcum
          · intro j hj
            have := hmin (j + 1) (Nat.succ_lt_succ hj)
            simpa [add_assoc] using this

/-- C9.  PoS leader selection: with the uniform draw modelled as the oracle
input `r`, `select_validator` walks `validator_set` accumulating each
validator's stake (`staking_balances.get(v, 0)`) and returns the first
validator whose cumulative stake sum is `≥ r`; `total_staked` is the sum of
all staking balances; and the node may propose exactly when its own
`node_id` equals the pick. -/
theorem select_validator_spec (node_id : Nat) (vs : List Nat)
    (sb : List (Nat × ℚ)) (r : ℚ) :
    (mkPoSConsensus node_id vs sb).total_staked = (sb.map Prod.snd).sum ∧
    (∀ v, select_validator (mkPoSConsensus node_id vs sb) r = some v ↔
      ∃ i, ∃ hi : i < vs.length, vs.get ⟨i, hi⟩ = v ∧
        r ≤ cumStake sb (vs.take (i + 1)) ∧
        ∀ j < i, ¬ r ≤ cumStake sb (vs.take (j + 1))) ∧
    (can_propose (mkPoSConsensus node_id vs sb) r = true ↔
      select_validator (mkPoSConsensus node_id vs sb) r = some node_id) := by
  refine ⟨rfl, ?_, ?_⟩
  · intro v
    have := selectWalk_spec sb r vs 0 v
    simpa [select_validator, mkPoSConsensus] using this
  · simp [can_propose, mkPoSConsensus]

/-- A PBFT protocol message (pbft.py, `broadcast`): `{type, view, seq,
node_id, block, signature}`.  The block travels as a dictionary, which is the
same record as `Block` here. -/
structure PbftMsg where
  type : String
  view : Nat
  seq : Nat
  node_id : Nat
  block : Block
  signature : String
deriving DecidableEq, Repr

/-- Observable actions of the PBFT handler: broadcast protocol messages,
sync requests (`_trigger_sync`), fork events, authentication rejections, and
the node-level events of an inner `receive_block` call. -/
inductive PbftOutput where
  | bcast : String → Block → Nat → PbftOutput
  | syncRequest : Int → Int → PbftOutput
  | forkEvent : PbftOutput
  | reject : Nat → String → PbftOutput
  | nodeEvent : NodeEvent → PbftOutput
deriving DecidableEq, Repr

/-- PBFT engine state (pbft.py, `PbftConsensus.__init__`).  The
`prepared`/`committed` dictionaries map a sequence number to its voter set;
`none` models an absent key.  `received_messages` keeps the de-dup keys
`(sender_id, msg_type, seq)` (the stored message value is never read).
The message log and round timer are pure telemetry and are not modelled. -/
structure PbftConsensus where
  node : Node
  total_nodes : Nat
  current_view : Nat
  sequence_number : Nat
  prepared : Nat → Option (Finset Nat)
  committed : Nat → Option (Finset Nat)
  received_messages : Finset (Nat × String × Nat)
  malicious_nodes : Finset Nat
  last_proposed_index : Int

/-- A fresh PBFT engine (pbft.py, lines 14-29). -/
def mkPbftConsensus (node : Node) (total_nodes : Nat) : PbftConsensus :=
  { node := node, total_nodes := total_nodes, current_view := 0,
    sequence_number := 0, prepared := fun _ => none,
    committed := fun _ => none, received_messages := ∅,
    malicious_nodes := ∅, last_proposed_index := -1 }

/-- Primary selection `primary()` (pbft.py, lines 31-32): `current_view % total_nodes`. -/
def primary (st : PbftConsensus) : Nat :=
  st.current_view % st.total_nodes

/-- The PBFT quorum as computed inline at pbft.py lines 144 and 160:
`(2 * (total_nodes // 3)) + 1`. -/
def quorum (st : PbftConsensus) : Nat :=
  2 * (st.total_nodes / 3) + 1

/-- Dictionary update `if seq not in d: d[seq] = set()` followed by `d[seq].add(x)`. -/
def dictAdd (d : Nat → Option (Finset Nat)) (k : Nat) (x : Nat) :
    Nat → Option (Finset Nat) :=
  fun s => if s = k then some (insert x ((d k).getD ∅)) else d s

/-- The voter set stored at `k` (empty when the key is absent). -/
def votesAt (d : Nat → Option (Finset Nat)) (k : Nat) : Finset Nat :=
  (d k).getD ∅

@[simp] theorem votesAt_dictAdd (d : Nat → Option (Finset Nat)) (k x : Nat) :
    votesAt (dictAdd d k x) k = insert x (votesAt d k) := by
  simp [votesAt, dictAdd]

/-- The expression `self.node.blockchain.chain[-1].index if self.node.blockchain.chain
else -1`, as computed in `receive_message`. -/
def currentHeight (ns : Node) : Int :=
  match ns.blockchain.chain.getLast? with
  | none => -1
  | some t => (t.index : Int)

/-- Sync trigger `_trigger_sync(start, end)` (pbft.py, lines 284-294): broadcasts a sync
request when a network transport is attached. -/
def triggerSync (ns : Node) (s e : Int) : List PbftOutput :=
  if ns.network then [.syncRequest s e] else []

/-- The signed string
`f"{msg_type}:{msg_view}:{msg_seq}:{sender_id}:{block_str}"` (pbft.py,
line 85), over an abstract block serializer. -/
def pbftMessageData (serialize : Block → String) (msg : PbftMsg) : String :=
  msg.type ++ ":" ++ toString msg.view ++ ":" ++ toString msg.seq ++ ":" ++
    toString msg.node_id ++ ":" ++ serialize msg.block

/-- Cleanup `_cleanup_rounds(current_seq)` (pbft.py, lines 232-241): drop
`prepared`/`committed` entries (and the matching `received_messages` keys)
for every sequence `s` that is a key of `prepared` with
`s < current_seq - 5`. -/
def cleanupRounds (st : PbftConsensus) (current_seq : Nat) : PbftConsensus :=
  { st with
    prepared := fun s =>
      if (st.prepared s).isSome ∧ (s : Int) < (current_seq : Int) - 5 then none
      else st.prepared s,
    committed := fun s =>
      if (st.prepared s).isSome ∧ (s : Int) < (current_seq : Int) - 5 then none
      else st.committed s,
    received_messages := st.received_messages.filter fun k =>
      ¬ ((st.prepared k.2.2).isSome ∧ ((k.2.2 : Int) < (current_seq : Int) - 5)) }

/-- The tail of the COMMIT branch once a quorum exists and the block links
(pbft.py, lines 181-200): call `node.receive_block`; on success advance
`sequence_number` to `max(sequence_number, seq)` and clean up old rounds;
in all cases broadcast a REPLY. -/
def commitApply (H : BlockData → String) (st : PbftConsensus)
    (msg : PbftMsg) : PbftConsensus × List PbftOutput :=
  match st.node.receive_block H msg.block with
  | (added, node1, nevs) =>
    (if added = some true then
      cleanupRounds
        { st with
          node := node1,
          sequence_number := max st.sequence_number msg.seq } msg.seq
    else { st with node := node1 },
    nevs.map PbftOutput.nodeEvent ++ [.bcast "REPLY" msg.block msg.seq])

/-- The dispatch on `msg_type` performed after signature verification and
de-duplication (pbft.py, lines 103-202), on the state that has already
recorded the message key.  REPLY (and unknown types) are no-ops. -/
def pbftDispatch (H : BlockData → String) (st : PbftConsensus)
    (msg : PbftMsg) : PbftConsensus × List PbftOutput :=
  if msg.type = "PRE_PREPARE" then
    if (msg.block.index : Int) > currentHeight st.node + 1 then
      (st, triggerSync st.node (currentHeight st.node + 1) (msg.block.index : Int))
    else
      match st.node.blockchain.chain.getLast? with
      | some tip =>
        if msg.block.previous_hash ≠ tip.hash then (st, [.forkEvent])
        else if st.node.node_id ≠ primary st then
          ({ st with prepared := dictAdd st.prepared msg.seq (primary st) },
            [.bcast "PREPARE" msg.block msg.seq])
        else (st, [])
      | none =>
        if st.node.node_id ≠ primary st then
          ({ st with prepared := dictAdd st.prepared msg.seq (primary st) },
            [.bcast "PREPARE" msg.block msg.seq])
        else (st, [])
  else if msg.type = "PREPARE" then
    if (msg.block.index : Int) > currentHeight st.node + 1 then (st, [])
    else if quorum st ≤
        (votesAt (dictAdd st.prepared msg.seq msg.node_id) msg.seq).card then
      ({ st with
          prepared := dictAdd st.prepared msg.seq msg.node_id,
          committed := dictAdd st.committed msg.seq st.node.node_id },
        [.bcast "COMMIT" msg.block msg.seq])
    else ({ st with prepared := dictAdd st.prepared msg.seq msg.node_id }, [])
  else if msg.type = "COMMIT" then
    if quorum st ≤
        (votesAt (dictAdd st.committed msg.seq msg.node_id) msg.seq).card then
      if (msg.block.index : Int) ≤ currentHeight st.node then
        ({ st with committed := dictAdd st.committed msg.seq msg.node_id }, [])
      else if (msg.block.index : Int) > currentHeight st.node + 1 then
        ({ st with committed := dictAdd st.committed msg.seq msg.node_id },
          triggerSync st.node (currentHeight st.node + 1) (msg.block.index : Int))
      else
        match st.node.blockchain.chain.getLast? with
        | some tip =>
          if msg.block.previous_hash ≠ tip.hash then
            ({ st with committed := dictAdd st.committed msg.seq msg.node_id }, [])
          else
            commitApply H
              { st with committed := dictAdd st.committed msg.seq msg.node_id } msg
        | none =>
          commitApply H
            { st with committed := dictAdd st.committed msg.seq msg.node_id } msg
    else ({ st with committed := dictAdd st.committed msg.seq msg.node_id }, [])
  else (st, [])

/-- Handler `PbftConsensus.receive_message(msg)` (pbft.py, lines 59-210): look up the
sender's registered public key (reject and mark malicious when unknown),
verify the signature over `pbftMessageData` (reject and mark malicious on
failure), drop exact duplicates by `(sender, type, seq)`, record the key,
then dispatch on the message type.  `verify` abstracts ECDSA verification
and `serialize` the canonical JSON serializer. -/
def PbftConsensus.receive_message (verify : String → String → String → Bool)
    (serialize : Block → String) (H : BlockData → String)
    (st : PbftConsensus) (msg : PbftMsg) : PbftConsensus × List PbftOutput :=
  match st.node.public_keys msg.node_id with
  | none =>
    ({ st with malicious_nodes := insert msg.node_id st.malicious_nodes },
      [.reject msg.node_id "Unknown sender"])
  | some pem =>
    if verify pem (pbftMessageData serialize msg) msg.signature then
      if (msg.node_id, msg.type, msg.seq) ∈ st.received_messages then (st, [])
      else
        pbftDispatch H
          { st with received_messages :=
              insert (msg.node_id, msg.type, msg.seq) st.received_messages }
          msg
    else
      ({ st with malicious_nodes := insert msg.node_id st.malicious_nodes },
        [.reject msg.node_id "Invalid signature"])

theorem receive_message_accepts (verify : String → String → String → Bool)
    (serialize : Block → String) (H : BlockData → String)
    (st : PbftConsensus) (msg : PbftMsg) (pem : String)
    (hkey : st.node.public_keys msg.node_id = some pem)
    (hsig : verify pem (pbftMessageData serialize msg) msg.signature = true)
    (hdup : (msg.node_id, msg.type, msg.seq) ∉ st.received_messages) :
    PbftConsensus.receive_message verify serialize H st msg =
      pbftDispatch H
        { st with received_messages :=
            insert (msg.node_id, msg.type, msg.seq) st.received_messages }
        msg := by
  unfold PbftConsensus.receive_message
  simp only [hkey]
  rw [if_pos hsig, if_neg hdup]

theorem pbftDispatch_prepare (H : BlockData → String) (st : PbftConsensus)
    (msg : PbftMsg) (htype : msg.type = "PREPARE")
    (hidx : ¬ (msg.block.index : Int) > currentHeight st.node + 1) :
    pbftDispatch H st msg =
      if quorum st ≤
          (votesAt (dictAdd st.prepared msg.seq msg.node_id) msg.seq).card then
        ({ st with
            prepared := dictAdd st.prepared msg.seq msg.node_id,
            committed := dictAdd st.committed msg.seq st.node.node_id },
          [.bcast "COMMIT" msg.block msg.seq])
      else
        ({ st with prepared := dictAdd st.prepared msg.seq msg.node_id }, []) := by
  unfold pbftDispatch
  rw [htype]
  rw [if_neg (by decide : ¬ ("PREPARE" = "PRE_PREPARE")), if_pos rfl,
    if_neg hidx]

theorem pbftDispatch_preprepare_gap (H : BlockData → String)
    (st : PbftConsensus) (msg : PbftMsg) (htype : msg.type = "PRE_PREPARE")
    (hgap : (msg.block.index : Int) > currentHeight st.node + 1) :
    pbftDispatch H st msg =
      (st, triggerSync st.node (currentHeight st.node + 1)
        (msg.block.index : Int)) := by
  unfold pbftDispatch
  rw [htype, if_pos rfl, if_pos hgap]

/-- C3.  On a valid-signed, non-duplicate PREPARE whose `block.index` is at
most `tip.index + 1`, the node adds the sender to `prepared[seq]`; and if the
resulting `|prepared[seq]|` reaches the quorum `Q = 2*(N // 3) + 1` it emits
a COMMIT and adds its own node id to `committed[seq]`. -/
theorem pbft_prepare_spec (verify : String → String → String → Bool)
    (serialize : Block → String) (H : BlockData → String)
    (st : PbftConsensus) (msg : PbftMsg) (pem : String) (tip : Block)
    (hkey : st.node.public_keys msg.node_id = some pem)
    (hsig : verify pem (pbftMessageData serialize msg) msg.signature = true)
    (hdup : (msg.node_id, msg.type, msg.seq) ∉ st.received_messages)
    (htype : msg.type = "PREPARE")
    (htip : st.node.blockchain.chain.getLast? = some tip)
    (hidx : (msg.block.index : Int) ≤ (tip.index : Int) + 1) :
    votesAt
        (PbftConsensus.receive_message verify serialize H st msg).1.prepared
        msg.seq =
      insert msg.node_id (votesAt st.prepared msg.seq) ∧
    (2 * (st.total_nodes / 3) + 1 ≤
        (insert msg.node_id (votesAt st.prepared msg.seq)).card →
      PbftOutput.bcast "COMMIT" msg.block msg.seq ∈
        (PbftConsensus.receive_message verify serialize H st msg).2 ∧
      votesAt
          (PbftConsensus.receive_message verify serialize H st msg).1.committed
          msg.seq =
        insert st.node.node_id (votesAt st.committed msg.seq)) := by
  have hch : currentHeight st.node = (tip.index : Int) := by
    unfold currentHeight
    rw [htip]
  have hidx' : ¬ (msg.block.index : Int) > currentHeight st.node + 1 := by
    rw [hch]
    omega
  rw [receive_message_accepts verify serialize H st msg pem hkey hsig hdup]
  rw [pbftDispatch_prepare H
    { st with received_messages :=
        insert (msg.node_id, msg.type, msg.seq) st.received_messages }
    msg htype hidx']
  rcases le_or_lt (2 * (st.total_nodes / 3) + 1)
      ((insert msg.node_id (votesAt st.prepared msg.seq)).card) with hq | hq
  · rw [if_pos (by simpa [quorum] using hq)]
    refine ⟨by simp, fun _ => ⟨by simp, by simp⟩⟩
  · rw [if_neg (by simpa [quorum] using not_le.mpr hq)]
    exact ⟨by simp, fun h => absurd h (not_le.mpr hq)⟩

/-- C4.  On a valid-signed, non-duplicate PRE_PREPARE whose `block.index`
exceeds `tip.index + 1` (with a network transport attached), the node
broadcasts a sync request for `[tip.index + 1, block.index]` and returns
without emitting a PREPARE and without touching `prepared`. -/
theorem pbft_preprepare_gap_sync (verify : String → String → String → Bool)
    (serialize : Block → String) (H : BlockData → String)
    (st : PbftConsensus) (msg : PbftMsg) (pem : String) (tip : Block)
    (hkey : st.node.public_keys msg.node_id = some pem)
    (hsig : verify pem (pbftMessageData serialize msg) msg.signature = true)
    (hdup : (msg.node_id, msg.type, msg.seq) ∉ st.received_messages)
    (htype : msg.type = "PRE_PREPARE")
    (htip : st.node.blockchain.chain.getLast? = some tip)
    (hgap : (tip.index : Int) + 1 < (msg.block.index : Int))
    (hnet : st.node.network = true) :
    (PbftConsensus.receive_message verify serialize H st msg).2 =
      [PbftOutput.syncRequest ((tip.index : Int) + 1) (msg.block.index : Int)] ∧
    (PbftConsensus.receive_message verify serialize H st msg).1.prepared =
      st.prepared ∧
    ∀ (b : Block) (s : Nat), PbftOutput.bcast "PREPARE" b s ∉
      (PbftConsensus.receive_message verify serialize H st msg).2 := by
  have hch : currentHeight st.node = (tip.index : Int) := by
    unfold currentHeight
    rw [htip]
  have hgap' : (msg.block.index : Int) > currentHeight st.node + 1 := by
    rw [hch]
    omega
  rw [receive_message_accepts verify serialize H st msg pem hkey hsig hdup]
  rw [pbftDispatch_preprepare_gap H
    { st with received_messages :=
        insert (msg.node_id, msg.type, msg.seq) st.received_messages }
    msg htype hgap']
  refine ⟨?_, rfl, ?_⟩
  · simp [triggerSync, hnet, hch]
  · intro b s
    simp [triggerSync, hnet]

/-- The everywhere-true signature verifier used to instantiate the abstract
ECDSA check in witnesses. -/
def vTrue : String → String → String → Bool := fun _ _ _ => true

/-- A trivial block serializer for witnesses. -/
def serNull : Block → String := fun _ => ""

/-- A concrete node for the PBFT witnesses: id 1, all peers' keys
registered, network attached. -/
def pbftNode : Node :=
  { Node.init Hc 1 "pem1" false with
    public_keys := fun _ => some "k",
    network := true }

/-- A concrete 4-node PBFT engine on `pbftNode`. -/
def pbftSt : PbftConsensus := mkPbftConsensus pbftNode 4

/-- A concrete PREPARE message from node 2 at seq 1 for a height-1 block. -/
def prepMsg : PbftMsg :=
  ⟨"PREPARE", 0, 1, 2, mkBlock Hc 1 (create_genesis_block Hc).hash [] 0 0, "s"⟩

/-- A concrete PRE_PREPARE message from node 0 at seq 3 for a height-3
block, creating a gap above the genesis tip. -/
def gapMsg : PbftMsg :=
  ⟨"PRE_PREPARE", 0, 3, 0, mkBlock Hc 3 "x" [] 0 0, "s"⟩

/-- C3 witness: the concrete PREPARE is processed on the fresh engine. -/
theorem pbft_prepare_spec_witness :
    pbftSt.node.public_keys prepMsg.node_id = some "k" ∧
    vTrue "k" (pbftMessageData serNull prepMsg) prepMsg.signature = true ∧
    (prepMsg.node_id, prepMsg.type, prepMsg.seq) ∉ pbftSt.received_messages ∧
    prepMsg.type = "PREPARE" ∧
    pbftSt.node.blockchain.chain.getLast? = some (create_genesis_block Hc) ∧
    (prepMsg.block.index : Int) ≤ ((create_genesis_block Hc).index : Int) + 1 ∧
    (votesAt
        (PbftConsensus.receive_message vTrue serNull Hc pbftSt prepMsg).1.prepared
        prepMsg.seq =
      insert prepMsg.node_id (votesAt pbftSt.prepared prepMsg.seq) ∧
    (2 * (pbftSt.total_nodes / 3) + 1 ≤
        (insert prepMsg.node_id (votesAt pbftSt.prepared prepMsg.seq)).card →
      PbftOutput.bcast "COMMIT" prepMsg.block prepMsg.seq ∈
        (PbftConsensus.receive_message vTrue serNull Hc pbftSt prepMsg).2 ∧
      votesAt
          (PbftConsensus.receive_message vTrue serNull Hc pbftSt prepMsg).1.committed
          prepMsg.seq =
        insert pbftSt.node.node_id (votesAt pbftSt.committed prepMsg.seq))) :=
  ⟨rfl, rfl, Finset.not_mem_empty _, rfl, rfl, by decide,
    pbft_prepare_spec vTrue serNull Hc pbftSt prepMsg "k"
      (create_genesis_block Hc) rfl rfl (Finset.not_mem_empty _) rfl rfl
      (by decide)⟩

/-- C4 witness: the concrete gapped PRE_PREPARE triggers a sync request for
blocks 1 to 3 and no PREPARE vote. -/
theorem pbft_preprepare_gap_sync_witness :
    pbftSt.node.public_keys gapMsg.node_id = some "k" ∧
    vTrue "k" (pbftMessageData serNull gapMsg) gapMsg.signature = true ∧
    (gapMsg.node_id, gapMsg.type, gapMsg.seq) ∉ pbftSt.received_messages ∧
    gapMsg.type = "PRE_PREPARE" ∧
    pbftSt.node.blockchain.chain.getLast? = some (create_genesis_block Hc) ∧
    ((create_genesis_block Hc).index : Int) + 1 < (gapMsg.block.index : Int) ∧
    pbftSt.node.network = true ∧
    ((PbftConsensus.receive_message vTrue serNull Hc pbftSt gapMsg).2 =
      [PbftOutput.syncRequest (((create_genesis_block Hc).index : Int) + 1)
        (gapMsg.block.index : Int)] ∧
    (PbftConsensus.receive_message vTrue serNull Hc pbftSt gapMsg).1.prepared =
      pbftSt.prepared ∧
    ∀ (b : Block) (s : Nat), PbftOutput.bcast "PREPARE" b s ∉
      (PbftConsensus.receive_message vTrue serNull Hc pbftSt gapMsg).2) :=
  ⟨rfl, rfl, Finset.not_mem_empty _, rfl, rfl, by decide, rfl,
    pbft_preprepare_gap_sync vTrue serNull Hc pbftSt gapMsg "k"
      (create_genesis_block Hc) rfl rfl (Finset.not_mem_empty _) rfl rfl
      (by decide) rfl⟩

/-- A PoA consensus wire message: `{block, signature, sender_id}`, each read
with `.get` (absent keys give `none`). -/
structure PoAMsg where
  block : Option Block
  signature : Option String
  sender_id : Option Nat
deriving DecidableEq, Repr

/-- Python truthiness of `not block or not signature or not sender_id`
(poa.py, line 73): a missing key, an empty signature string and the integer
sender id 0 are falsy (a present `Block` is a non-empty dict, hence truthy). -/
def poaFalsy (m : PoAMsg) : Bool :=
  m.block.isNone || m.signature.isNone || m.signature == some "" ||
    m.sender_id.isNone || m.sender_id == some 0

/-- A Python runtime error escaping a handler. -/
inductive PyError where
  | attributeError : String → PyError
deriving DecidableEq, Repr

/-- Observable actions of the PoA handler short of admission. -/
inductive PoAOutput where
  | invalidMsg : PoAOutput
  | reject : Nat → String → PoAOutput
deriving DecidableEq, Repr

/-- PoA engine state (poa.py, `PoAConsensus.__init__`); the block-timing
fields, used only by the proposer side, are not needed here. -/
structure PoAConsensus where
  node : Node
  validators : List Nat
  current_leader_index : Nat
  malicious_nodes : Finset Nat
  received_blocks : Finset String

/-- A fresh PoA engine (poa.py, lines 6-14). -/
def mkPoAConsensus (node : Node) (validators : List Nat) : PoAConsensus :=
  ⟨node, validators, 0, ∅, ∅⟩

/-- Handler `PoAConsensus.receive_message(msg)` (poa.py, lines 68-131), with
Python's exception behaviour made explicit.  After the validity,
validator-membership and key-registration checks, line 96 executes
`verify_signature.load_public_key(sender_pubkey_pem)`.  But
`verify_signature` is the *function* imported from `utils` (poa.py, line 2),
and a Python function object has no `load_public_key` attribute, so this
line raises `AttributeError` before any signature is checked;
`receive_message` contains no `try`, so the exception escapes the handler
(the transport above it catches only `json.JSONDecodeError`).  Everything
below line 96 — signature verification, de-duplication by block hash,
tip-linked admission, fork recording — is unreachable and therefore absent
from this embedding.  `PoSConsensus.receive_message` (pos.py, line 97) has
the identical defect. -/
def PoAConsensus.receive_message (c : PoAConsensus) (msg : PoAMsg) :
    Except PyError (PoAConsensus × List PoAOutput) :=
  if poaFalsy msg then .ok (c, [.invalidMsg])
  else
    match msg.sender_id with
    | none => .ok (c, [.invalidMsg])
    | some sender =>
      if sender ∉ c.validators then
        .ok ({ c with malicious_nodes := insert sender c.malicious_nodes },
          [.reject sender "non-validator"])
      else
        match c.node.public_keys sender with
        | none => .ok (c, [.reject sender "unknown key"])
        | some _pem =>
          .error (.attributeError "load_public_key on the verify function")

/-- A concrete node for the PoA scenario: id 0, peer keys registered. -/
def poaNode : Node :=
  { Node.init Hc 0 "pem0" true with public_keys := fun _ => some "k" }

/-- A concrete two-validator PoA engine. -/
def poaSt : PoAConsensus := mkPoAConsensus poaNode [0, 1]

/-- A well-formed PoA message from validator 1 with a registered key. -/
def poaMsgEx : PoAMsg :=
  ⟨some (mkBlock Hc 1 (create_genesis_block Hc).hash [] 0 0), some "sig",
    some 1⟩

/-- C5.  For an inbound PoA message whose sender is a validator with a
registered public key, `receive_message` raises `AttributeError` at
`verify_signature.load_public_key` (poa.py, line 96) before verifying
anything, and the error propagates out of the handler — contradicting the
specified behaviour (verify, de-dup, admit-or-fork, recover locally). -/
theorem poa_receive_message_attribute_error :
    (1 : Nat) ∈ poaSt.validators ∧
    poaSt.node.public_keys 1 = some "k" ∧
    poaFalsy poaMsgEx = false ∧
    PoAConsensus.receive_message poaSt poaMsgEx =
      Except.error (PyError.attributeError
        "load_public_key on the verify function") :=
  ⟨by decide, rfl, rfl, rfl⟩

end BlockchainSim
